import Mathlib

/-!
Verification of the boyle MHD codec (`src/boyle/mhd.py`) and the stateful
`MedicalImage` cache/transform pipeline (`src/boyle/medimage.py`).

Python strings are embedded as `List Char`; Python's `str.split`, `str.strip`,
`int()`, `str()` and `' '.join` are embedded as executable Lean functions with
the same behavior on the inputs that occur.  Python `dict` literals are
embedded as association lists built by sequential insertion (a later duplicate
key overwrites the stored value in place, as in Python).  File I/O is embedded
by passing the file contents (header text, raw bytes) explicitly; numpy
arrays are embedded as a shape plus the flat list of samples in C order, with
each sample's bit pattern as a `Nat`.

External collaborators that the spec excludes from the core (the nibabel-like
image object, the Gaussian smoothing kernel, the mask reshaping helpers in
`boyle.mask`, and all path utilities) are modelled as explicit state or as
parameters/definitions marked `Modelled from the spec`.
-/

deriving instance DecidableEq for Except

namespace Boyle

/-- Python strings, embedded as lists of characters. -/
abbrev Str := List Char

/-- Python `str.strip()`: drop whitespace from both ends. -/
def pyStrip (s : Str) : Str :=
  ((s.dropWhile Char.isWhitespace).reverse.dropWhile Char.isWhitespace).reverse

/-- Python `str.split(sep)` for a one-character separator: split on every
occurrence, keeping empty pieces.  The result is always nonempty. -/
def pySplit (sep : Char) : Str → List Str
  | [] => [[]]
  | c :: rest =>
    match pySplit sep rest with
    | [] => [[]]
    | s :: ss => if c = sep then [] :: s :: ss else (c :: s) :: ss

/-- Worker for Python `str.split()` with no argument: `tok` holds the
current token, reversed. -/
def splitWsAux : Str → Str → List Str
  | [], tok => if tok = [] then [] else [tok.reverse]
  | c :: rest, tok =>
    if c.isWhitespace then
      if tok = [] then splitWsAux rest [] else tok.reverse :: splitWsAux rest []
    else splitWsAux rest (c :: tok)

/-- Python `str.split()` with no argument: split on runs of whitespace,
discarding empty pieces. -/
def pySplitWs (s : Str) : List Str := splitWsAux s []

/-- Python `int(s)` on a nonnegative decimal string (the only form this code
produces): strips whitespace, then requires at least one digit. -/
def pyInt (s : Str) : Option Nat :=
  let t := pyStrip s
  if t ≠ [] ∧ t.all Char.isDigit then
    some (t.foldl (fun a c => 10 * a + (c.toNat - 48)) 0)
  else none

/-- Decimal digit to its character. -/
def digitToChar (d : Nat) : Char := Char.ofNat (48 + d)

/-- Little-endian decimal digits of `n`, with a structural fuel bound
(`fuel ≥ n` suffices) so that it evaluates by kernel reduction. -/
def natDigitsRev : Nat → Nat → List Nat
  | 0, _ => []
  | _, 0 => []
  | fuel + 1, n + 1 => (n + 1) % 10 :: natDigitsRev fuel ((n + 1) / 10)

/-- Python `str(n)` for a nonnegative integer. -/
def natToStr (n : Nat) : Str :=
  if n = 0 then ['0'] else ((natDigitsRev n n).reverse.map digitToChar)

/-- Python `' '.join(parts)`. -/
def joinSpace : List Str → Str
  | [] => []
  | [s] => s
  | s :: rest => s ++ ' ' :: joinSpace rest

/-- Insert into a Python dict embedded as an association list: a duplicate key
overwrites the stored value in place (keeping its original position), as in
Python. -/
def dictInsert {κ α : Type} [DecidableEq κ] : List (κ × α) → κ → α → List (κ × α)
  | [], k, v => [(k, v)]
  | (k', v') :: rest, k, v =>
    if k = k' then (k', v) :: rest else (k', v') :: dictInsert rest k v

/-- Build a Python dict from a literal: sequential insertion. -/
def dictOf {κ α : Type} [DecidableEq κ] (l : List (κ × α)) : List (κ × α) :=
  l.foldl (fun d kv => dictInsert d kv.1 kv.2) []

/-- Python dict lookup (`k in d` / `d.get(k)`), as an `Option`. -/
def dictLookup {κ α : Type} [DecidableEq κ] : List (κ × α) → κ → Option α
  | [], _ => none
  | (k', v) :: rest, k => if k = k' then some v else dictLookup rest k

/-- Worker for `chunks`, structurally recursive on a fuel bound so that it
evaluates by kernel reduction; `fuel` is at least the list's length at every
call. -/
def chunksFuel {α : Type} (n : Nat) : Nat → List α → List (List α)
  | _, [] => []
  | 0, _ :: _ => []
  | fuel + 1, x :: xs =>
    if n = 0 then []
    else (x :: xs.take (n - 1)) :: chunksFuel n fuel (xs.drop (n - 1))

/-- Split a list into consecutive chunks of `n` elements (the final chunk may
be shorter); `n = 0` yields no chunks. -/
def chunks {α : Type} (n : Nat) (l : List α) : List (List α) :=
  chunksFuel n l.length l

/-- Little-endian byte serialization of a `width`-byte machine word. -/
def wordToBytes : Nat → Nat → List Nat
  | 0, _ => []
  | w + 1, x => (x % 256) :: wordToBytes w (x / 256)

/-- Little-endian byte deserialization. -/
def bytesToWord : List Nat → Nat
  | [] => 0
  | b :: rest => b + 256 * bytesToWord rest

/-! ## `boyle/mhd.py`: tags and type tables -/

/-- `MHD_TAGS` (mhd.py lines 20-39); the order matters for serialization. -/
def MHD_TAGS : List Str :=
  [ "ObjectType".toList,
    "NDims".toList,
    "BinaryData".toList,
    "BinaryDataByteOrderMSB".toList,
    "CompressedData".toList,
    "CompressedDataSize".toList,
    "TransformMatrix".toList,
    "Offset".toList,
    "CenterOfRotation".toList,
    "AnatomicalOrientation".toList,
    "ElementSpacing".toList,
    "DimSize".toList,
    "ElementType".toList,
    "ElementDataFile".toList,
    "Comment".toList,
    "SeriesDescription".toList,
    "AcquisitionDate".toList,
    "AcquisitionTime".toList,
    "StudyDate".toList,
    "StudyTime".toList ]

/-- The numpy scalar types appearing in mhd.py.  `np.float` is the Python
builtin `float`, a dict key distinct from `np.float64`. -/
inductive NpType
  | float | uint8 | int8 | uint16 | int16
  | uint32 | int32 | uint64 | int64 | float32 | float64
  deriving DecidableEq

/-- `MHD_TO_NUMPY_TYPE` (mhd.py lines 42-52), with the source's duplicate
literal keys (`MET_USHORT`/`MET_SHORT` share values with `MET_UCHAR`/
`MET_CHAR`; `MET_ULONG` and `MET_FLOAT` each appear twice, the later entry
overwriting the earlier one as Python dict literals do). -/
def MHD_TO_NUMPY_TYPE : List (Str × NpType) :=
  dictOf
    [ ("MET_FLOAT".toList,  NpType.float),
      ("MET_UCHAR".toList,  NpType.uint8),
      ("MET_CHAR".toList,   NpType.int8),
      ("MET_USHORT".toList, NpType.uint8),
      ("MET_SHORT".toList,  NpType.int8),
      ("MET_UINT".toList,   NpType.uint32),
      ("MET_INT".toList,    NpType.int32),
      ("MET_ULONG".toList,  NpType.uint64),
      ("MET_ULONG".toList,  NpType.int64),
      ("MET_FLOAT".toList,  NpType.float32),
      ("MET_DOUBLE".toList, NpType.float64) ]

/-- `NDARRAY_TO_ARRAY_TYPE` (mhd.py lines 55-65): numpy dtype to `array`
module type code. -/
def NDARRAY_TO_ARRAY_TYPE : List (NpType × Char) :=
  dictOf
    [ (NpType.float,   'f'),
      (NpType.uint8,   'H'),
      (NpType.int8,    'h'),
      (NpType.uint16,  'I'),
      (NpType.int16,   'i'),
      (NpType.uint32,  'I'),
      (NpType.int32,   'i'),
      (NpType.uint64,  'I'),
      (NpType.int64,   'i'),
      (NpType.float32, 'f'),
      (NpType.float64, 'd') ]

/-- `NUMPY_TO_MHD_TYPE = {v: k for k, v in MHD_TO_NUMPY_TYPE.items()}`
(mhd.py line 68): inverting a dict with duplicate values keeps the last
key for each value. -/
def NUMPY_TO_MHD_TYPE : List (NpType × Str) :=
  dictOf (MHD_TO_NUMPY_TYPE.map (fun p => (p.2, p.1)))

/-- CPython `array` module item sizes for the type codes used in the table:
`'H'`/`'h'` are 2-byte shorts, `'I'`/`'i'` 4-byte ints, `'f'` 4-byte floats,
`'d'` 8-byte doubles. -/
def arrayTypeWidth (c : Char) : Nat :=
  if c = 'H' then 2 else if c = 'h' then 2
  else if c = 'I' then 4 else if c = 'i' then 4
  else if c = 'f' then 4 else if c = 'd' then 8 else 0

/-! ## `boyle/mhd.py`: header codec -/

/-- Python exceptions raised by the mhd module. -/
inductive MhdErr
  | indexError | keyError | assertionError | eofError | valueError | typeError
  deriving DecidableEq

/-- The line-processing loop of `read_meta_header` (mhd.py lines 79-88).
Each line is split on every `'='` (Python `str.split(line, '=')`); if the
stripped first piece is a schema tag not yet recorded, the stripped second
piece is recorded for it (`IndexError` if the line had no `'='`).  `seen`
plays the role of `tag_flag`; `acc` is the dict in insertion order. -/
def parseLines : List Str → List Str → List (Str × Str) →
    Except MhdErr (List (Str × Str))
  | [], _, acc => .ok acc
  | line :: rest, seen, acc =>
    let parts := pySplit '=' line
    let key := pyStrip (parts.headD [])
    if key ∈ MHD_TAGS ∧ key ∉ seen then
      match parts with
      | _ :: v :: _ => parseLines rest (key :: seen) (acc ++ [(key, pyStrip v)])
      | _ => .error .indexError
    else parseLines rest seen acc

/-- `read_meta_header` (mhd.py lines 72-91), over the header file's text.
`readline` iteration is embedded as splitting the text on newlines (the
extra empty piece after a trailing newline matches no tag and is skipped,
exactly as Python's loop stops at end of file). -/
def read_meta_header (file : Str) : Except MhdErr (List (Str × Str)) :=
  parseLines (pySplit '\n' file) [] []

/-- `write_meta_header` (mhd.py lines 127-135) without the file handle: the
text written.  Iterates `MHD_TAGS` in order and appends
`'{} = {}\x0a'.format(tag, meta_dict[tag])` for each tag present. -/
def write_meta_header (meta : List (Str × Str)) : Str :=
  MHD_TAGS.foldl
    (fun hdr tag =>
      match dictLookup meta tag with
      | some v => hdr ++ tag ++ (" = ").toList ++ v ++ ['\n']
      | none => hdr)
    []

/-- The restriction of a header to the tags of `ts` that are present, in the
order of `ts`. -/
def restrictTags (ts : List Str) (meta : List (Str × Str)) : List (Str × Str) :=
  ts.filterMap (fun t => (dictLookup meta t).map (fun v => (t, v)))

/-- The header restricted to the schema keys present, in schema order. -/
def schemaRestrict (meta : List (Str × Str)) : List (Str × Str) :=
  restrictTags MHD_TAGS meta

/-- The text of one serialized header line, without its trailing newline. -/
def lineOf (p : Str × Str) : Str := p.1 ++ (" = ").toList ++ p.2

/-! ## `boyle/mhd.py`: raw data codec -/

/-- A numpy ndarray at the mhd level: shape, flat samples in C order (each
sample as its bit pattern), and dtype. -/
structure RawVolume where
  shape : List Nat
  vals : List Nat
  dtype : NpType
  deriving DecidableEq

/-- Python `d[k]`: `KeyError` when the key is absent. -/
def dictGet {κ α : Type} [DecidableEq κ] (d : List (κ × α)) (k : κ) :
    Except MhdErr α :=
  match dictLookup d k with
  | some v => .ok v
  | none => .error .keyError

/-- Python `int(s)` in the `DimSize`/`NDims` list comprehension: `ValueError`
on a non-numeric string. -/
def pyIntE (s : Str) : Except MhdErr Nat :=
  match pyInt s with
  | some n => .ok n
  | none => .error .valueError

/-- The conversion a CPython `array('f')` applies to one sample when it is
appended by `fromlist`.  For a `float32` source sample this is the identity
on bit patterns (`float32 → Python float → float32` is exact).  Conversions
from the other dtypes are numeric float conversions that no theorem below
exercises, so they are not modelled. -/
def float32OfBits : NpType → Nat → Nat
  | .float32, w => w
  | _, _ => 0

/-- The width of the bit-pattern cast `np.array(binvalues, ndtype)` applies
to the values read from the file; integer dtypes truncate to their width,
float dtypes keep the bit pattern (exact for matching widths, which is the
only case the theorems below exercise). -/
def npCast : NpType → Nat → Nat
  | .float, w => w
  | .float32, w => w
  | .float64, w => w
  | .uint8, w => w % 2 ^ 8
  | .int8, w => w % 2 ^ 8
  | .uint16, w => w % 2 ^ 16
  | .int16, w => w % 2 ^ 16
  | .uint32, w => w % 2 ^ 32
  | .int32, w => w % 2 ^ 32
  | .uint64, w => w % 2 ^ 64
  | .int64, w => w % 2 ^ 64

/-- The `[int(i) for i in meta_dict['DimSize'].split()]` comprehension:
left to right, failing with `ValueError` at the first non-numeric entry. -/
def mapPyIntE : List Str → Except MhdErr (List Nat)
  | [] => .ok []
  | s :: rest =>
    match pyInt s with
    | none => .error .valueError
    | some n =>
      match mapPyIntE rest with
      | .error e => .error e
      | .ok ns => .ok (n :: ns)

/-- `load_raw_data_with_mhd` (mhd.py lines 94-124).  The two files are passed
as contents: the header text and the raw data file's bytes (the resolution of
`ElementDataFile` against the header's directory is a path utility, excluded
as an external collaborator; the corresponding raw file is `rawBytes`).
`array.fromfile` reads `count` items of `arrayTypeWidth` bytes each and
raises `EOFError` when fewer bytes are available; `np.reshape` fails with
`ValueError` on a size mismatch.  Python's negative indexing makes
`arr[0:dim-1]` and `arr[dim-1]` wrap around when `dim = 0`. -/
def load_raw_data_with_mhd (headerFile : Str) (rawBytes : List Nat) :
    Except MhdErr (RawVolume × List (Str × Str)) :=
  match read_meta_header headerFile with
  | .error e => .error e
  | .ok meta =>
  match dictGet meta ("NDims").toList with
  | .error e => .error e
  | .ok ndimsStr =>
  match pyIntE ndimsStr with
  | .error e => .error e
  | .ok dim =>
  match dictGet meta ("ElementType").toList with
  | .error e => .error e
  | .ok et =>
  if (dictLookup MHD_TO_NUMPY_TYPE et).isNone then .error .assertionError
  else
  match dictGet meta ("DimSize").toList with
  | .error e => .error e
  | .ok dimSizeStr =>
  match mapPyIntE (pySplitWs dimSizeStr) with
  | .error e => .error e
  | .ok arr =>
  let volume := (if dim = 0 then arr.dropLast else arr.take (dim - 1)).foldl (· * ·) 1
  match dictGet meta ("ElementDataFile").toList with
  | .error e => .error e
  | .ok _ =>
  match dictGet MHD_TO_NUMPY_TYPE et with
  | .error e => .error e
  | .ok ndtype =>
  match dictGet NDARRAY_TO_ARRAY_TYPE ndtype with
  | .error e => .error e
  | .ok arrtype =>
  match (if dim = 0 then arr.getLast? else arr[dim - 1]?) with
  | none => .error .indexError
  | some lastDim =>
  let count := volume * lastDim
  let w := arrayTypeWidth arrtype
  if rawBytes.length < count * w then .error .eofError
  else
  let words := (chunks w (rawBytes.take (count * w))).map bytesToWord
  let data := words.map (npCast ndtype)
  if data.length ≠ lastDim * volume then .error .valueError
  else if dim = 3 then
    let dimensions := arr.reverse
    if data.length ≠ dimensions.foldl (· * ·) 1 then .error .valueError
    else .ok (⟨dimensions, data, ndtype⟩, meta)
  else .ok (⟨[lastDim, volume], data, ndtype⟩, meta)

/-- `dump_raw_data` (mhd.py lines 138-152): the bytes written to the raw
file.  A 3-D array is first reshaped to 2-D (flat order unchanged); iterating
the rows and appending `list(o)` to an `array('f')` then writes every sample
as a 4-byte float32, in flat C order, with no byte swap.  Iteration plus
`fromlist` only works for 2-D and 3-D input (`TypeError` otherwise). -/
def dump_raw_data (data : RawVolume) : Except MhdErr (List Nat) :=
  if data.shape.length = 3 ∨ data.shape.length = 2 then
    .ok ((data.vals.map (fun v => wordToBytes 4 (float32OfBits data.dtype v))).flatten)
  else .error .typeError

/-- `write_mhd_file` (mhd.py lines 155-173): returns the header text and the
raw bytes written.  The `.mhd` extension assertion and the derivation of the
sibling `.raw` file name from `mhdfile` are path utilities (excluded
collaborators); the derived data-file name is passed in as `rawname`. -/
def write_mhd_file (rawname : Str) (data : RawVolume) (shape : List Nat) :
    Except MhdErr (Str × List Nat) :=
  match dictGet NUMPY_TO_MHD_TYPE data.dtype with
  | .error e => .error e
  | .ok et =>
  let meta := dictOf
    [ (("ObjectType").toList, ("Image").toList),
      (("BinaryData").toList, ("True").toList),
      (("BinaryDataByteOrderMSB").toList, ("False").toList),
      (("ElementType").toList, et),
      (("NDims").toList, natToStr shape.length),
      (("DimSize").toList, joinSpace (shape.map natToStr)),
      (("ElementDataFile").toList, rawname) ]
  let header := write_meta_header meta
  match dump_raw_data data with
  | .error e => .error e
  | .ok raw => .ok (header, raw)

/-! ## `boyle/medimage.py`: the `MedicalImage` state -/

/-- Python exceptions raised by the medimage module or its collaborators. -/
inductive PyErr
  | attributeError | nameError | valueError | smoothingError | maskLoadError
  deriving DecidableEq

/-- A numpy ndarray at the medimage level: shape plus flat samples. -/
structure NdArr where
  shape : List Nat
  vals : List Int
  deriving DecidableEq

/-- An array as returned to a caller, tagged with whether it is the very
buffer cached inside the image object (aliasing) or an independent copy. -/
structure ArrRef where
  arr : NdArr
  aliasesCache : Bool
  deriving DecidableEq

/-- The nibabel-like image object (an excluded external collaborator,
modelled from the spec): it owns the decoded data and a residency flag
(`in_memory`); `get_data(caching='fill')` makes the data resident,
`uncache()` evicts it. -/
structure Img where
  data : NdArr
  in_memory : Bool
  deriving DecidableEq

/-- The loaded mask image: a boolean volume with its own residency flag. -/
structure MaskImg where
  shape : List Nat
  vals : List Bool
  in_memory : Bool
  deriving DecidableEq

/-- The caching policy (`medimage.py` line 106): `'fill'` or `'unchanged'`. -/
inductive Caching
  | fill | unchanged
  deriving DecidableEq

/-- The mutable state of a `MedicalImage` (medimage.py lines 104-113).
`clear()`-ed instances (which drop `img` itself) are outside this model;
`img` is always present. -/
structure MedicalImage where
  img : Img
  mask : Option MaskImg
  caching : Caching
  smooth_fwhm : Int
  is_data_masked : Bool
  is_data_smooth : Bool
  deriving DecidableEq

/-- The outcome of a Python method call: a value or a raised exception,
together with the state of `self` afterwards. -/
inductive PyRes (α : Type)
  | ok (st : MedicalImage) (a : α)
  | raise (st : MedicalImage) (e : PyErr)
  deriving DecidableEq

/-- `has_data_loaded` (medimage.py lines 127-128): `self.img.in_memory`. -/
def hasDataLoaded (st : MedicalImage) : Bool := st.img.in_memory

/-- Modelled from the spec: the core of `vector_to_volume` (boyle.mask, not
under src/): place the values at the mask's true positions in order,
background positions are zero. -/
def fillMask : List Bool → List Int → List Int
  | [], _ => []
  | true :: ms, x :: vs => x :: fillMask ms vs
  | true :: ms, [] => 0 :: fillMask ms []
  | false :: ms, vs => 0 :: fillMask ms vs

/-- Modelled from the spec: `vector_to_volume(arr, mask)` (boyle.mask, not
under src/) reconstructs a full volume of the mask's shape from a flat
array of the values at mask-true voxels. -/
def vector_to_volume (arr : NdArr) (m : MaskImg) : NdArr :=
  { shape := m.shape, vals := fillMask m.vals arr.vals }

/-- Keep the elements whose mask entry is true (numpy boolean indexing). -/
def boolSelect {α : Type} (vals : List α) (msk : List Bool) : List α :=
  ((vals.zip msk).filter (fun p => p.2)).map (fun p => p.1)

/-- The number of true voxels of a mask. -/
def countTrue (l : List Bool) : Nat := (l.filter id).length

/-- Modelled from the spec: `matrix_to_4dvolume(arr, mask)` (boyle.mask, not
under src/) rebuilds one volume per column of the 2-D input and stacks them
along a new trailing axis. -/
def matrix_to_4dvolume (arr : NdArr) (m : MaskImg) : NdArr :=
  let ncols := match arr.shape with | _ :: c :: _ => c | _ => 0
  let cols := (chunks ncols arr.vals).transpose
  { shape := m.shape ++ [ncols],
    vals := (cols.map (fillMask m.vals)).flatten }

/-- Modelled from the spec: `_apply_mask_to_4d_data(data, mask)` (boyle.mask,
not under src/): per-volume masking across the trailing axis of 4-D data,
yielding the 2-D matrix of selected voxels (rows) by volumes (columns). -/
def apply_mask_to_4d_data (data : NdArr) (m : MaskImg) : NdArr :=
  let nt := data.shape.getLastD 0
  { shape := [countTrue m.vals, nt],
    vals := (boolSelect (chunks nt data.vals) m.vals).flatten }

/-- `_mask_data` (medimage.py lines 296-323), returning the first component
of its result pair.  `self.ndim` is the rank of the image's own shape; a
missing mask would be `None.get_data()`, an `AttributeError` (all callers
guard on `has_mask`). -/
def mask_data (st : MedicalImage) (data : NdArr) : Except PyErr NdArr :=
  match st.mask with
  | none => .error .attributeError
  | some m =>
    if st.img.data.shape.length = 3 then
      .ok { shape := [countTrue m.vals], vals := boolSelect data.vals m.vals }
    else if st.img.data.shape.length = 4 then
      .ok (apply_mask_to_4d_data data m)
    else .error .valueError

/-- `unmask` (medimage.py lines 363-379): with no mask, log and return the
input unchanged; with a mask, a 2-D input goes through `matrix_to_4dvolume`,
a 1-D input through `vector_to_volume`, and any other rank raises
`ValueError`. -/
def unmask (st : MedicalImage) (arr : NdArr) : Except PyErr NdArr :=
  match st.mask with
  | none => .ok arr
  | some m =>
    if arr.shape.length = 2 then .ok (matrix_to_4dvolume arr m)
    else if arr.shape.length = 1 then .ok (vector_to_volume arr m)
    else .error .valueError

/-- `get_data` (medimage.py lines 178-227).  `smoothFn fwhm a` stands for the
external `_smooth_data_array(a, affine, fwhm, copy=False)` (an in-place
smoothing: the returned array is the input buffer, so the aliasing tag is
preserved); arbitrary failures of it are allowed.  The `safe_copy` branch
executes `data = get_data(self.img)` (line 201), but the module's imports
(lines 13-26) never bind a module-level `get_data` and a method name is not
in scope unqualified inside its own class, so that statement raises
`NameError` before any state change.  On the other branch
`self.img.get_data(caching=...)` returns the image's own buffer and, under
the `'fill'` policy, makes it resident (so in that branch the remaining
`if not safe_copy` tests of the source are always taken).  The cache-hit
branch at lines 196-198 ends in `return self.get_data()` — a recursive call
with the default arguments — so the function is embedded with explicit fuel;
`none` means the fuel was exhausted by that recursion. -/
def getData (smoothFn : Int → NdArr → Except PyErr NdArr) :
    Nat → MedicalImage → Bool → Bool → Bool → Option (PyRes ArrRef)
  | 0, _, _, _, _ => none
  | fuel + 1, st, smoothed, masked, safe_copy =>
    if !safe_copy && (smoothed == st.is_data_smooth) && (masked == st.is_data_masked)
        && hasDataLoaded st && (st.caching == Caching.fill) then
      getData smoothFn fuel st true true false
    else if safe_copy then
      some (.raise st PyErr.nameError)
    else
      let data0 : ArrRef := { arr := st.img.data, aliasesCache := true }
      let st1 :=
        if st.caching == Caching.fill then
          { st with img := { st.img with in_memory := true } }
        else st
      let smoothStep : Except PyErr (ArrRef × Bool) :=
        if smoothed && decide (0 < st1.smooth_fwhm) then
          match smoothFn st1.smooth_fwhm data0.arr with
          | .error e => .error e
          | .ok a => .ok ({ arr := a, aliasesCache := data0.aliasesCache }, true)
        else .ok (data0, false)
      match smoothStep with
      | .error e => some (.raise st1 e)
      | .ok (data1, smoothedNow) =>
        let maskStep : Except PyErr (ArrRef × Bool) :=
          if masked && st1.mask.isSome then
            match mask_data st1 data1.arr with
            | .error e => .error e
            | .ok flat =>
              match unmask st1 flat with
              | .error e => .error e
              | .ok a => .ok ({ arr := a, aliasesCache := false }, true)
          else .ok (data1, false)
        match maskStep with
        | .error e => some (.raise st1 e)
        | .ok (data2, maskedNow) =>
          let st2 :=
            { st1 with is_data_smooth := smoothedNow, is_data_masked := maskedNow }
          some (.ok st2 data2)

/-- `apply_smoothing` (medimage.py lines 325-347): a no-op for
`fwhm <= 0`; otherwise sets the width, recomputes via
`get_data(smoothed=True, masked=True, safe_copy=True)`, restores the old
width and re-raises on failure, and returns the data on success. -/
def applySmoothing (smoothFn : Int → NdArr → Except PyErr NdArr)
    (fuel : Nat) (st : MedicalImage) (fwhm : Int) :
    Option (PyRes (Option ArrRef)) :=
  if fwhm ≤ 0 then some (.ok st none)
  else
    let old := st.smooth_fwhm
    let st1 := { st with smooth_fwhm := fwhm }
    match getData smoothFn fuel st1 true true true with
    | none => none
    | some (.raise st2 e) => some (.raise { st2 with smooth_fwhm := old } e)
    | some (.ok st2 d) => some (.ok { st2 with smooth_fwhm := fwhm } (some d))

/-- `clear_data` (medimage.py lines 122-125): `self.img.uncache()` then
`self.mask.uncache()` — the latter is executed whether or not a mask is set,
so a missing mask is `None.uncache()`, an `AttributeError`. -/
def clear_data (st : MedicalImage) : Except PyErr MedicalImage :=
  let st1 := { st with img := { st.img with in_memory := false } }
  match st1.mask with
  | none => .error .attributeError
  | some m => .ok { st1 with mask := some { m with in_memory := false } }

/-- A small concrete image state used to evaluate the theorems on concrete
inputs. -/
def sampleState : MedicalImage :=
  { img := { data := { shape := [1], vals := [7] }, in_memory := true },
    mask := none, caching := Caching.fill, smooth_fwhm := 0,
    is_data_masked := false, is_data_smooth := false }

/-! ## Theorems -/

/-! ### String and split/strip lemmas -/

theorem pySplit_ne_nil (sep : Char) (s : Str) : pySplit sep s ≠ [] := by
  cases s with
  | nil => simp [pySplit]
  | cons c rest =>
    rw [pySplit]
    cases h : pySplit sep rest with
    | nil => simp
    | cons a as => by_cases hc : c = sep <;> simp [hc]

theorem pySplit_of_not_mem {sep : Char} : ∀ {s : Str}, sep ∉ s → pySplit sep s = [s]
  | [], _ => rfl
  | c :: rest, h => by
    have hc : ¬c = sep := fun e => h (by simp [e])
    have ht : sep ∉ rest := fun m => h (List.mem_cons_of_mem _ m)
    rw [pySplit, pySplit_of_not_mem ht]
    simp [hc]

theorem pySplit_append {sep : Char} :
    ∀ {a : Str} (b : Str), sep ∉ a →
      pySplit sep (a ++ sep :: b) = a :: pySplit sep b
  | [], b, _ => by
    rw [List.nil_append, pySplit]
    cases h : pySplit sep b with
    | nil => exact absurd h (pySplit_ne_nil sep b)
    | cons s ss => simp
  | c :: t, b, h => by
    have hc : ¬c = sep := fun e => h (by simp [e])
    have ht : sep ∉ t := fun m => h (List.mem_cons_of_mem _ m)
    rw [List.cons_append, pySplit, pySplit_append b ht]
    simp [hc]

theorem dropWhile_append_of_ne_nil {α : Type} (p : α → Bool) :
    ∀ (l1 l2 : List α), l1.dropWhile p ≠ [] →
      (l1 ++ l2).dropWhile p = l1.dropWhile p ++ l2
  | [], _, h => absurd rfl h
  | a :: t, l2, h => by
    cases hp : p a with
    | true =>
      have h' : t.dropWhile p ≠ [] := by
        simpa [List.dropWhile, hp] using h
      simp [List.dropWhile, hp, dropWhile_append_of_ne_nil p t l2 h']
    | false => simp [List.dropWhile, hp]

theorem pyStrip_cons_ws {c : Char} (hc : c.isWhitespace = true) (s : Str) :
    pyStrip (c :: s) = pyStrip s := by
  simp [pyStrip, List.dropWhile, hc]

theorem pyStrip_append_ws {c : Char} (hc : c.isWhitespace = true) {t : Str}
    (ht : pyStrip t = t) : pyStrip (t ++ [c]) = t := by
  by_cases hd : t.dropWhile Char.isWhitespace = []
  · have hnil : t = [] := by
      have h0 : pyStrip t = [] := by simp [pyStrip, hd]
      rwa [ht] at h0
    subst hnil
    simp [pyStrip, List.dropWhile, hc]
  · rw [pyStrip, dropWhile_append_of_ne_nil _ _ _ hd]
    rw [List.reverse_append, List.reverse_singleton, List.singleton_append]
    rw [show (c :: (t.dropWhile Char.isWhitespace).reverse).dropWhile Char.isWhitespace
          = (t.dropWhile Char.isWhitespace).reverse.dropWhile Char.isWhitespace by
        simp [List.dropWhile, hc]]
    exact ht

/-! ### Header serialization and parsing lemmas -/

theorem mhd_tags_ok :
    ∀ t ∈ MHD_TAGS, pyStrip (t ++ [' ']) = t ∧ '=' ∉ t ∧ '\n' ∉ t := by
  decide

theorem mhd_tags_nodup : MHD_TAGS.Nodup := by decide

theorem mem_restrictTags {ts : List Str} {meta : List (Str × Str)} {t v : Str}
    (h : (t, v) ∈ restrictTags ts meta) :
    t ∈ ts ∧ dictLookup meta t = some v := by
  rw [restrictTags, List.mem_filterMap] at h
  obtain ⟨a, ha, hfa⟩ := h
  cases hl : dictLookup meta a with
  | none => rw [hl] at hfa; exact absurd hfa (by simp)
  | some w =>
    rw [hl] at hfa
    simp only [Option.map_some', Option.some.injEq, Prod.mk.injEq] at hfa
    obtain ⟨rfl, rfl⟩ := hfa
    exact ⟨ha, hl⟩

theorem parseLines_cons_record {line k v : Str} {more : List Str}
    (seen : List Str) (acc : List (Str × Str)) (rest : List Str)
    (hsplit : pySplit '=' line = k :: v :: more)
    (hk : pyStrip k ∈ MHD_TAGS) (hs : pyStrip k ∉ seen) :
    parseLines (line :: rest) seen acc
      = parseLines rest (pyStrip k :: seen) (acc ++ [(pyStrip k, pyStrip v)]) := by
  rw [parseLines]
  simp only [hsplit, List.headD_cons]
  rw [if_pos ⟨hk, hs⟩]

theorem parseLines_cons_skip {line : Str}
    (seen : List Str) (acc : List (Str × Str)) (rest : List Str)
    (h : ¬(pyStrip ((pySplit '=' line).headD []) ∈ MHD_TAGS ∧
           pyStrip ((pySplit '=' line).headD []) ∉ seen)) :
    parseLines (line :: rest) seen acc = parseLines rest seen acc := by
  simp only [parseLines]
  rw [if_neg h]

theorem parseLines_empty_line (seen : List Str) (acc : List (Str × Str)) :
    parseLines [[]] seen acc = .ok acc := by
  rw [parseLines_cons_skip seen acc []]
  · rfl
  · intro hc
    exact absurd hc.1 (by decide)

theorem foldl_append_acc {α : Type} (f : Str → α → Str)
    (hf : ∀ acc x, f acc x = acc ++ f [] x) :
    ∀ (ts : List α) (acc : Str), ts.foldl f acc = acc ++ ts.foldl f []
  | [], acc => by simp
  | t :: ts, acc => by
    rw [List.foldl_cons, List.foldl_cons,
        foldl_append_acc f hf ts (f acc t), foldl_append_acc f hf ts (f [] t),
        hf acc t, List.append_assoc]

theorem wmh_gen (meta : List (Str × Str)) :
    ∀ ts : List Str,
      ts.foldl
        (fun hdr tag =>
          match dictLookup meta tag with
          | some v => hdr ++ tag ++ (" = ").toList ++ v ++ ['\n']
          | none => hdr)
        []
      = ((restrictTags ts meta).map (fun p => lineOf p ++ ['\n'])).flatten
  | [] => rfl
  | t :: ts => by
    have hf : ∀ (acc : Str) (x : Str),
        (fun hdr tag =>
          match dictLookup meta tag with
          | some v => hdr ++ tag ++ (" = ").toList ++ v ++ ['\n']
          | none => hdr) acc x
        = acc ++ (fun hdr tag =>
          match dictLookup meta tag with
          | some v => hdr ++ tag ++ (" = ").toList ++ v ++ ['\n']
          | none => hdr) [] x := by
      intro acc x
      cases h : dictLookup meta x with
      | none => simp [h]
      | some v => simp [h]
    rw [List.foldl_cons, foldl_append_acc _ hf ts _, wmh_gen meta ts]
    cases h : dictLookup meta t with
    | none => simp [restrictTags, List.filterMap_cons, h]
    | some v => simp [restrictTags, List.filterMap_cons, h, lineOf]

theorem write_meta_header_eq (meta : List (Str × Str)) :
    write_meta_header meta
      = ((schemaRestrict meta).map (fun p => lineOf p ++ ['\n'])).flatten :=
  wmh_gen meta MHD_TAGS

theorem pySplit_flatten_newline :
    ∀ ls : List Str, (∀ l ∈ ls, '\n' ∉ l) →
      pySplit '\n' ((ls.map (fun l => l ++ ['\n'])).flatten) = ls ++ [[]]
  | [], _ => rfl
  | a :: t, h => by
    rw [List.map_cons, List.flatten_cons]
    rw [show (a ++ ['\n']) ++ ((t.map (fun l => l ++ ['\n'])).flatten)
          = a ++ '\n' :: ((t.map (fun l => l ++ ['\n'])).flatten) by simp]
    rw [pySplit_append _ (h a (by simp)),
        pySplit_flatten_newline t (fun l hl => h l (by simp [hl]))]
    rfl

theorem parseLines_restrict (meta : List (Str × Str)) :
    ∀ ts : List Str, (∀ t ∈ ts, t ∈ MHD_TAGS) → ts.Nodup →
      (∀ t ∈ ts, ∀ v, dictLookup meta t = some v → pyStrip v = v ∧ '=' ∉ v) →
      ∀ seen : List Str, (∀ t ∈ ts, t ∉ seen) →
      ∀ (acc : List (Str × Str)) (rest : List Str),
      ∃ seen', parseLines ((restrictTags ts meta).map lineOf ++ rest) seen acc
        = parseLines rest seen' (acc ++ restrictTags ts meta)
  | [], _, _, _, seen, _, acc, rest => ⟨seen, by simp [restrictTags]⟩
  | t :: ts, hsub, hnd, hclean, seen, hseen, acc, rest => by
    have htMem : t ∈ MHD_TAGS := hsub t (by simp)
    obtain ⟨htStrip, htEq, _⟩ := mhd_tags_ok t htMem
    have hndTail : ts.Nodup := (List.nodup_cons.mp hnd).2
    have htNotTs : t ∉ ts := (List.nodup_cons.mp hnd).1
    have hsubT : ∀ u ∈ ts, u ∈ MHD_TAGS := fun u hu => hsub u (by simp [hu])
    have hcleanT : ∀ u ∈ ts, ∀ v, dictLookup meta u = some v →
        pyStrip v = v ∧ '=' ∉ v :=
      fun u hu => hclean u (by simp [hu])
    cases hlk : dictLookup meta t with
    | none =>
      have hrt : restrictTags (t :: ts) meta = restrictTags ts meta := by
        simp [restrictTags, List.filterMap_cons, hlk]
      rw [hrt]
      exact parseLines_restrict meta ts hsubT hndTail hcleanT seen
        (fun u hu => hseen u (by simp [hu])) acc rest
    | some v =>
      obtain ⟨hvStrip, hvEq⟩ := hclean t (by simp) v hlk
      have hrt : restrictTags (t :: ts) meta = (t, v) :: restrictTags ts meta := by
        simp [restrictTags, List.filterMap_cons, hlk]
      rw [hrt, List.map_cons, List.cons_append]
      have hsplit : pySplit '=' (lineOf (t, v)) = (t ++ [' ']) :: (' ' :: v) :: [] := by
        have hshape : lineOf (t, v) = (t ++ [' ']) ++ '=' :: (' ' :: v) := by
          simp [lineOf]
        rw [hshape,
            pySplit_append (' ' :: v)
              (by
                intro hmem
                rcases List.mem_append.mp hmem with hmem | hmem
                · exact htEq hmem
                · simp at hmem),
            pySplit_of_not_mem
              (by
                intro hmem
                rcases List.mem_cons.mp hmem with hmem | hmem
                · exact absurd hmem (by decide)
                · exact hvEq hmem)]
      rw [parseLines_cons_record seen acc _ hsplit
            (by rw [htStrip]; exact htMem)
            (by rw [htStrip]; exact hseen t (by simp))]
      rw [htStrip, pyStrip_cons_ws (by decide) v, hvStrip]
      obtain ⟨seen', hrec⟩ :=
        parseLines_restrict meta ts hsubT hndTail hcleanT (t :: seen)
          (by
            intro u hu
            intro hmem
            rcases List.mem_cons.mp hmem with hmem | hmem
            · exact htNotTs (hmem ▸ hu)
            · exact hseen u (by simp [hu]) hmem)
          (acc ++ [(t, v)]) rest
      refine ⟨seen', ?_⟩
      rw [hrec, List.append_assoc]
      rfl

theorem read_write_roundtrip (meta : List (Str × Str))
    (hclean : ∀ t ∈ MHD_TAGS, ∀ v, dictLookup meta t = some v →
      pyStrip v = v ∧ '=' ∉ v ∧ '\n' ∉ v) :
    read_meta_header (write_meta_header meta) = .ok (schemaRestrict meta) := by
  rw [read_meta_header, write_meta_header_eq]
  rw [show ((schemaRestrict meta).map (fun p => lineOf p ++ ['\n'])).flatten
        = (((schemaRestrict meta).map lineOf).map (fun l => l ++ ['\n'])).flatten by
      rw [List.map_map]; rfl]
  rw [pySplit_flatten_newline ((schemaRestrict meta).map lineOf)
      (by
        intro l hl
        rw [List.mem_map] at hl
        obtain ⟨⟨t, v⟩, hmem, rfl⟩ := hl
        obtain ⟨htMem, hlk⟩ := mem_restrictTags hmem
        obtain ⟨_, _, htNl⟩ := mhd_tags_ok t htMem
        obtain ⟨_, _, hvNl⟩ := hclean t htMem v hlk
        intro hmem'
        rw [lineOf] at hmem'
        rcases List.mem_append.mp hmem' with h' | h'
        · rcases List.mem_append.mp h' with h'' | h''
          · exact htNl h''
          · simp at h''
        · exact hvNl h')]
  obtain ⟨seen', hp⟩ :=
    parseLines_restrict meta MHD_TAGS (fun t ht => ht) mhd_tags_nodup
      (fun t ht v hv => ⟨(hclean t ht v hv).1, (hclean t ht v hv).2.1⟩)
      [] (fun t _ => List.not_mem_nil t) [] [[]]
  rw [show restrictTags MHD_TAGS meta = schemaRestrict meta from rfl] at hp
  rw [hp, parseLines_empty_line]
  rfl

/-! ### Decimal strings, whitespace joins and byte blocks -/

theorem mem_of_head? {α : Type} {l : List α} {a : α} (h : l.head? = some a) :
    a ∈ l := by
  cases l with
  | nil => exact absurd h (by simp)
  | cons x t =>
    simp only [List.head?_cons, Option.some.injEq] at h
    simp [h]

theorem mem_of_getLast? {α : Type} {l : List α} {a : α} (h : l.getLast? = some a) :
    a ∈ l := by
  rw [← List.head?_reverse] at h
  exact List.mem_reverse.mp (mem_of_head? h)

theorem natDigitsRev_eq :
    ∀ (fuel n : Nat), n ≤ fuel → natDigitsRev fuel n = Nat.digits 10 n
  | 0, 0, _ => by simp [natDigitsRev]
  | 0, n + 1, h => by omega
  | fuel + 1, 0, _ => by simp [natDigitsRev]
  | fuel + 1, n + 1, h => by
    rw [natDigitsRev, Nat.digits_def' (by norm_num : 1 < 10) (Nat.succ_pos n),
        natDigitsRev_eq fuel ((n + 1) / 10)
          (by
            have := Nat.div_lt_self (Nat.succ_pos n) (by norm_num : 1 < 10)
            omega)]

theorem natToStr_eq_digits (n : Nat) :
    natToStr n = if n = 0 then ['0'] else ((Nat.digits 10 n).reverse.map digitToChar) := by
  rw [natToStr, natDigitsRev_eq n n (le_refl n)]

theorem natToStr_clean (n : Nat) :
    (∀ c ∈ natToStr n,
      c.isDigit = true ∧ c.isWhitespace = false ∧ c ≠ '=' ∧ c ≠ '\n') ∧
    natToStr n ≠ [] := by
  constructor
  · intro c hc
    rw [natToStr_eq_digits] at hc
    by_cases hn : n = 0
    · simp only [hn, if_true, List.mem_singleton] at hc
      subst hc
      decide
    · simp only [hn, if_false, List.mem_map, List.mem_reverse] at hc
      obtain ⟨d, hd, rfl⟩ := hc
      have hlt : d < 10 := Nat.digits_lt_base (by norm_num) hd
      interval_cases d <;> decide
  · rw [natToStr_eq_digits]
    by_cases hn : n = 0
    · simp [hn]
    · simp only [hn, if_false, ne_eq, List.map_eq_nil_iff, List.reverse_eq_nil_iff]
      exact Nat.digits_ne_nil_iff_ne_zero.mpr hn

theorem pyStrip_of_no_ws {s : Str} (h : ∀ c ∈ s, c.isWhitespace = false) :
    pyStrip s = s := by
  have h1 : s.dropWhile Char.isWhitespace = s := by
    cases s with
    | nil => rfl
    | cons a t => simp [List.dropWhile, h a (by simp)]
  rw [pyStrip, h1]
  have h2 : s.reverse.dropWhile Char.isWhitespace = s.reverse := by
    cases hr : s.reverse with
    | nil => rfl
    | cons a t =>
      have ha : a ∈ s := by
        rw [← List.mem_reverse, hr]
        simp
      simp [List.dropWhile, h a ha]
  rw [h2, List.reverse_reverse]

theorem foldr_ofDigits :
    ∀ L : List Nat, L.foldr (fun d a => 10 * a + d) 0 = Nat.ofDigits 10 L
  | [] => by simp [Nat.ofDigits]
  | d :: L => by
    rw [List.foldr_cons, foldr_ofDigits L, Nat.ofDigits_cons]
    ring

theorem foldl_digitToChar :
    ∀ (L : List Nat), (∀ d ∈ L, d < 10) → ∀ a : Nat,
      L.foldl (fun a c => 10 * a + c) a
        = L.foldl (fun a d => 10 * a + d) a := fun _ _ _ => rfl

theorem foldl_digitChars :
    ∀ (L : List Nat), (∀ d ∈ L, d < 10) → ∀ a : Nat,
      (L.map digitToChar).foldl (fun a c => 10 * a + (c.toNat - 48)) a
        = L.foldl (fun a d => 10 * a + d) a
  | [], _, a => rfl
  | d :: L, h, a => by
    have hd : d < 10 := h d (by simp)
    have hchar : (digitToChar d).toNat - 48 = d := by
      interval_cases d <;> decide
    rw [List.map_cons, List.foldl_cons, List.foldl_cons, hchar]
    exact foldl_digitChars L (fun e he => h e (by simp [he])) _

theorem pyInt_natToStr (n : Nat) : pyInt (natToStr n) = some n := by
  by_cases hn : n = 0
  · subst hn
    decide
  · have hclean := natToStr_clean n
    rw [pyInt]
    rw [pyStrip_of_no_ws (fun c hc => (hclean.1 c hc).2.1)]
    rw [if_pos ⟨hclean.2, by
      rw [List.all_eq_true]
      intro c hc
      exact (hclean.1 c hc).1⟩]
    congr 1
    rw [natToStr_eq_digits, if_neg hn]
    rw [foldl_digitChars _ (fun d hd =>
      Nat.digits_lt_base (by norm_num) (List.mem_reverse.mp hd)) 0]
    rw [List.foldl_reverse]
    rw [show (fun (a : Nat) (d : Nat) => (fun a d => 10 * a + d) d a)
          = (fun d a => 10 * a + d) from rfl]
    rw [foldr_ofDigits, Nat.ofDigits_digits]

theorem pyIntE_natToStr (n : Nat) : pyIntE (natToStr n) = .ok n := by
  rw [pyIntE, pyInt_natToStr]

theorem joinSpace_cons_cons (s r : Str) (rest : List Str) :
    joinSpace (s :: r :: rest) = s ++ ' ' :: joinSpace (r :: rest) := rfl

theorem mem_joinSpace {c : Char} :
    ∀ {ls : List Str}, c ∈ joinSpace ls → c = ' ' ∨ ∃ s ∈ ls, c ∈ s
  | [], h => absurd h (List.not_mem_nil c)
  | [s], h => Or.inr ⟨s, by simp, h⟩
  | s :: r :: rest, h => by
    rw [joinSpace_cons_cons] at h
    rcases List.mem_append.mp h with h | h
    · exact Or.inr ⟨s, by simp, h⟩
    · rcases List.mem_cons.mp h with h | h
      · exact Or.inl h
      · rcases mem_joinSpace h with h | ⟨u, hu, hcu⟩
        · exact Or.inl h
        · exact Or.inr ⟨u, by simp [hu], hcu⟩

theorem pyStrip_of_ends {s : Str}
    (h1 : ∀ c, s.head? = some c → c.isWhitespace = false)
    (h2 : ∀ c, s.getLast? = some c → c.isWhitespace = false) :
    pyStrip s = s := by
  have hd : s.dropWhile Char.isWhitespace = s := by
    cases s with
    | nil => rfl
    | cons a t => simp [List.dropWhile, h1 a rfl]
  rw [pyStrip, hd]
  have hr : s.reverse.dropWhile Char.isWhitespace = s.reverse := by
    cases hrev : s.reverse with
    | nil => rfl
    | cons a t =>
      have hlast : s.getLast? = some a := by
        rw [← List.head?_reverse, hrev]
        rfl
      simp [List.dropWhile, h2 a hlast]
  rw [hr, List.reverse_reverse]

theorem splitWsAux_token :
    ∀ (t : Str), (∀ c ∈ t, c.isWhitespace = false) →
      ∀ (s tok : Str), splitWsAux (t ++ s) tok = splitWsAux s (t.reverse ++ tok)
  | [], _, s, tok => by simp
  | c :: t, h, s, tok => by
    rw [List.cons_append, splitWsAux]
    simp only [h c (by simp), Bool.false_eq_true, if_false]
    rw [splitWsAux_token t (fun d hd => h d (by simp [hd])) s (c :: tok)]
    simp

theorem pySplitWs_joinSpace :
    ∀ toks : List Str,
      (∀ t ∈ toks, t ≠ [] ∧ ∀ c ∈ t, c.isWhitespace = false) →
      pySplitWs (joinSpace toks) = toks
  | [], _ => rfl
  | [t], h => by
    obtain ⟨hne, hws⟩ := h t (by simp)
    rw [show joinSpace [t] = t from rfl, pySplitWs, ← List.append_nil t,
        splitWsAux_token t hws [] []]
    simp [splitWsAux, hne]
  | t :: r :: rest, h => by
    obtain ⟨hne, hws⟩ := h t (by simp)
    rw [joinSpace_cons_cons, pySplitWs,
        splitWsAux_token t hws (' ' :: joinSpace (r :: rest)) [], splitWsAux]
    simp only [List.append_nil]
    rw [if_pos (by decide)]
    rw [if_neg (by simp [hne])]
    rw [List.reverse_reverse]
    have ih := pySplitWs_joinSpace (r :: rest) (fun u hu => h u (by simp [hu]))
    rw [pySplitWs] at ih
    rw [ih]

theorem wordToBytes_length : ∀ (w x : Nat), (wordToBytes w x).length = w
  | 0, _ => rfl
  | w + 1, x => by
    rw [wordToBytes, List.length_cons, wordToBytes_length w (x / 256)]

theorem bytesToWord_wordToBytes :
    ∀ (w x : Nat), x < 256 ^ w → bytesToWord (wordToBytes w x) = x
  | 0, x, h => by
    simp only [pow_zero, Nat.lt_one_iff] at h
    simp [wordToBytes, bytesToWord, h]
  | w + 1, x, h => by
    rw [wordToBytes, bytesToWord,
        bytesToWord_wordToBytes w (x / 256)
          (by
            rw [Nat.div_lt_iff_lt_mul (by norm_num)]
            calc x < 256 ^ (w + 1) := h
            _ = 256 ^ w * 256 := by ring)]
    omega

theorem chunksFuel_flatten {α : Type} (n : Nat) (hn : 0 < n) :
    ∀ (bs : List (List α)) (fuel : Nat), bs.flatten.length ≤ fuel →
      (∀ b ∈ bs, b.length = n) → chunksFuel n fuel bs.flatten = bs
  | [], fuel, _, _ => by
    rw [List.flatten_nil]
    cases fuel <;> rfl
  | b :: bs, fuel, hfuel, h => by
    rw [List.flatten_cons]
    cases hb : b with
    | nil =>
      have := h b (by simp)
      rw [hb] at this
      simp at this; omega
    | cons x xs =>
      have hlen : xs.length = n - 1 := by
        have := h b (by simp)
        rw [hb] at this
        simp at this; omega
      cases fuel with
      | zero =>
        exfalso
        rw [List.flatten_cons, hb] at hfuel
        simp at hfuel
      | succ fuel =>
        rw [List.cons_append, chunksFuel, if_neg (by omega),
            List.take_left' hlen, List.drop_left' hlen,
            chunksFuel_flatten n hn bs fuel
              (by
                rw [List.flatten_cons, hb] at hfuel
                simp only [List.length_append, List.length_cons] at hfuel
                omega)
              (fun u hu => h u (by simp [hu]))]

theorem chunks_flatten {α : Type} (n : Nat) (bs : List (List α)) (hn : 0 < n)
    (h : ∀ b ∈ bs, b.length = n) : chunks n bs.flatten = bs :=
  chunksFuel_flatten n hn bs bs.flatten.length (le_refl _) h

theorem flatten_wordToBytes_length (vals : List Nat) :
    ((vals.map (wordToBytes 4)).flatten).length = 4 * vals.length := by
  rw [List.length_flatten, List.map_map,
      show (List.length ∘ wordToBytes 4) = Function.const Nat 4 from
        funext (fun x => wordToBytes_length 4 x),
      List.map_const, List.sum_replicate, smul_eq_mul, Nat.mul_comm]

theorem map_npCast_float32 (l : List Nat) : l.map (npCast NpType.float32) = l := by
  rw [show npCast NpType.float32 = (fun a : Nat => a) from rfl, List.map_id']

theorem map_decode_f32 (vals : List Nat) (hbound : ∀ v ∈ vals, v < 2 ^ 32) :
    List.map bytesToWord (List.map (wordToBytes 4) vals) = vals := by
  induction vals with
  | nil => rfl
  | cons v vs ih =>
    rw [List.map_cons, List.map_cons,
        bytesToWord_wordToBytes 4 v (lt_of_lt_of_le (hbound v (by simp)) (by norm_num)),
        ih (fun u hu => hbound u (by simp [hu]))]

theorem decode_f32 (vals : List Nat) (i : Nat)
    (hbound : ∀ v ∈ vals, v < 2 ^ 32) (hi : 4 * vals.length ≤ i) :
    List.map (npCast NpType.float32)
      (List.map bytesToWord
        (chunks 4 (List.take i (List.map (wordToBytes 4) vals).flatten))) = vals := by
  rw [List.take_of_length_le (by rw [flatten_wordToBytes_length]; exact hi),
      chunks_flatten 4 (List.map (wordToBytes 4) vals) (by norm_num)
        (by
          intro b hb
          rw [List.mem_map] at hb
          obtain ⟨v, _, rfl⟩ := hb
          exact wordToBytes_length 4 v),
      map_decode_f32 vals hbound, map_npCast_float32]

theorem restrictTags_congr {m1 m2 : List (Str × Str)}
    (h : ∀ t, dictLookup m1 t = dictLookup m2 t) :
    ∀ ts : List Str, restrictTags ts m1 = restrictTags ts m2
  | [] => rfl
  | t :: ts => by
    rw [restrictTags, restrictTags, List.filterMap_cons, List.filterMap_cons, h t,
        show List.filterMap _ ts = restrictTags ts m1 from rfl,
        show List.filterMap _ ts = restrictTags ts m2 from rfl,
        restrictTags_congr h ts]

theorem dictLookup_perm {κ α : Type} [DecidableEq κ] {h1 h2 : List (κ × α)}
    (hp : h1.Perm h2) :
    ∀ (_ : (h1.map Prod.fst).Nodup) (k : κ), dictLookup h1 k = dictLookup h2 k := by
  induction hp with
  | nil => intro _ _; rfl
  | cons x p ih =>
    intro hnd k
    rw [dictLookup, dictLookup]
    by_cases hk : k = x.1
    · simp [hk]
    · simp only [hk, if_false]
      exact ih (by simpa using (List.nodup_cons.mp (by simpa using hnd)).2) k
  | swap x y l =>
    intro hnd k
    have hxy : y.1 ≠ x.1 := by
      simp only [List.map_cons, List.nodup_cons, List.mem_cons, not_or] at hnd
      exact hnd.1.1
    rw [dictLookup, dictLookup]
    by_cases hky : k = y.1
    · rw [if_pos hky, dictLookup, if_neg (hky ▸ hxy ∘ Eq.symm ∘ Eq.symm), dictLookup,
          if_pos hky]
    · rw [if_neg hky, dictLookup]
      by_cases hkx : k = x.1
      · rw [if_pos hkx, if_pos hkx]
      · rw [if_neg hkx, if_neg hkx, dictLookup, if_neg hky]
  | trans p q ih1 ih2 =>
    intro hnd k
    rw [ih1 hnd k, ih2 (((p.map Prod.fst).nodup_iff).mp hnd) k]

/-- Claim C4 (amended): for every header whose values are already
whitespace-trimmed and contain no `'='` and no newline,
`parse(serialize(h))` is exactly `h` restricted to the schema keys present,
in schema order, with the value strings unchanged.  (The original claim,
quantified over arbitrary string values, fails: the parser splits each line
on every `'='`, so a value containing `'='` is truncated — see the
counterexample — and values with outer whitespace or embedded newlines are
likewise not preserved.) -/
theorem C4_header_roundtrip (meta : List (Str × Str))
    (hclean : ∀ t ∈ MHD_TAGS, ∀ v, dictLookup meta t = some v →
      pyStrip v = v ∧ '=' ∉ v ∧ '\n' ∉ v) :
    read_meta_header (write_meta_header meta) = .ok (schemaRestrict meta) :=
  read_write_roundtrip meta hclean

/-- Concrete instance of C4: a header with two schema tags and plain values
round-trips to its schema restriction. -/
theorem C4_header_roundtrip_witness :
    read_meta_header (write_meta_header
      [(("NDims").toList, ("3").toList), (("ObjectType").toList, ("Image").toList)])
    = .ok (schemaRestrict
      [(("NDims").toList, ("3").toList), (("ObjectType").toList, ("Image").toList)]) :=
  C4_header_roundtrip
    [(("NDims").toList, ("3").toList), (("ObjectType").toList, ("Image").toList)]
    (by decide)

/-- Counterexample to C4 as stated: the header `{Comment: "a=b"}` does not
round-trip — `read_meta_header` splits the line `Comment = a=b` on every
`'='` and keeps only the piece between the first and second, so the value
comes back as `"a"`. -/
theorem C4_counterexample :
    read_meta_header (write_meta_header [(("Comment").toList, ("a=b").toList)])
        ≠ .ok (schemaRestrict [(("Comment").toList, ("a=b").toList)]) ∧
    read_meta_header (write_meta_header [(("Comment").toList, ("a=b").toList)])
        = .ok [(("Comment").toList, ("a").toList)] := by
  exact ⟨by decide, by decide⟩

/-- Claim C8: `write_meta_header` depends only on the header as a mapping —
any permutation of a duplicate-free header serializes identically — the
empty header serializes to the empty string, and the output is exactly one
`tag = value` line for each schema tag present, in schema order, absent
tags omitted. -/
theorem C8_serialize_schema_order :
    (∀ h1 h2 : List (Str × Str), h1.Perm h2 → (h1.map Prod.fst).Nodup →
      write_meta_header h1 = write_meta_header h2) ∧
    write_meta_header [] = [] ∧
    (∀ meta, write_meta_header meta
      = ((schemaRestrict meta).map (fun p => lineOf p ++ ['\n'])).flatten) := by
  refine ⟨?_, rfl, write_meta_header_eq⟩
  intro h1 h2 hp hnd
  rw [write_meta_header_eq, write_meta_header_eq, schemaRestrict, schemaRestrict,
      restrictTags_congr (dictLookup_perm hp hnd) MHD_TAGS]

/-- Concrete instance of C8: two insertion orders of the same header
serialize identically. -/
theorem C8_serialize_witness :
    write_meta_header
      [(("NDims").toList, ("3").toList), (("ObjectType").toList, ("Image").toList)]
    = write_meta_header
      [(("ObjectType").toList, ("Image").toList), (("NDims").toList, ("3").toList)] :=
  C8_serialize_schema_order.1 _ _ (List.Perm.swap _ _ _) (by decide)

/-- Claim C5: the claim's end-to-end scenario — a header declaring
`NDims=3, DimSize="2 3 4", ElementType=MET_UCHAR` with a 24-byte data file
holding `0..23` — is claimed to load as a `(4,3,2)` volume with values
`0..23`.  It does not: `NDARRAY_TO_ARRAY_TYPE` maps `np.uint8` to the
`array` type code `'H'` (a 2-byte unsigned short), so `fromfile` asks for
`24 * 2 = 48` bytes from the 24-byte file and raises `EOFError`. -/
theorem C5_uchar_scenario_raises_eof :
    load_raw_data_with_mhd
      ("NDims = 3\nDimSize = 2 3 4\nElementType = MET_UCHAR\nElementDataFile = image.raw\n").toList
      (List.range 24)
    = .error .eofError := by
  decide

/-- Claim C6 (amended): for a float32 volume of any shape `(d0,d1,d2)` whose
samples fit in 32 bits, saving with `write_mhd_file` and loading back with
`load_raw_data_with_mhd` yields a volume of the same element type with
bit-identical samples in flat order — but with the REVERSED shape
`(d2,d1,d0)`, because the loader reverses `DimSize` for 3-D data while the
writer does not compensate.  (The original claim asserts the same shape
back; the counterexample shows shape `(1,1,2)` loading back as `(2,1,1)`.
The claim's hypothesis "element types whose encode width matches decode
width" is narrowed to float32, the only element type `dump_raw_data`'s
unconditional `array('f')` encoding writes faithfully.) -/
theorem C6_float32_roundtrip_reversed (d0 d1 d2 : Nat) (vals : List Nat) (rawname : Str)
    (hlen : vals.length = d0 * d1 * d2)
    (hbound : ∀ v ∈ vals, v < 2 ^ 32)
    (hrawStrip : pyStrip rawname = rawname)
    (hrawEq : '=' ∉ rawname) (hrawNl : '\n' ∉ rawname) :
    ∃ (header : Str) (raw : List Nat) (meta : List (Str × Str)),
      write_mhd_file rawname ⟨[d0, d1, d2], vals, NpType.float32⟩ [d0, d1, d2]
        = .ok (header, raw) ∧
      load_raw_data_with_mhd header raw
        = .ok (⟨[d2, d1, d0], vals, NpType.float32⟩, meta) := by
  have htok : ∀ t ∈ [natToStr d0, natToStr d1, natToStr d2],
      t ≠ [] ∧ ∀ c ∈ t, c.isWhitespace = false := by
    intro t ht
    simp only [List.mem_cons, List.not_mem_nil, or_false] at ht
    rcases ht with rfl | rfl | rfl <;>
      exact ⟨(natToStr_clean _).2, fun c hc => ((natToStr_clean _).1 c hc).2.1⟩
  have hsplitws : pySplitWs (joinSpace [natToStr d0, natToStr d1, natToStr d2])
      = [natToStr d0, natToStr d1, natToStr d2] := pySplitWs_joinSpace _ htok
  have hmap : mapPyIntE [natToStr d0, natToStr d1, natToStr d2] = .ok [d0, d1, d2] := by
    simp [mapPyIntE, pyInt_natToStr]
  have hjsEq : '=' ∉ joinSpace [natToStr d0, natToStr d1, natToStr d2] := by
    intro hmem
    rcases mem_joinSpace hmem with h | ⟨s, hs, hcs⟩
    · exact absurd h (by decide)
    · rcases htok s hs with ⟨_, hws⟩
      simp only [List.mem_cons, List.not_mem_nil, or_false] at hs
      rcases hs with rfl | rfl | rfl <;>
        exact ((natToStr_clean _).1 _ hcs).2.2.1 rfl
  have hjsNl : '\n' ∉ joinSpace [natToStr d0, natToStr d1, natToStr d2] := by
    intro hmem
    rcases mem_joinSpace hmem with h | ⟨s, hs, hcs⟩
    · exact absurd h (by decide)
    · simp only [List.mem_cons, List.not_mem_nil, or_false] at hs
      rcases hs with rfl | rfl | rfl <;>
        exact ((natToStr_clean _).1 _ hcs).2.2.2 rfl
  have hjsStrip : pyStrip (joinSpace [natToStr d0, natToStr d1, natToStr d2])
      = joinSpace [natToStr d0, natToStr d1, natToStr d2] := by
    apply pyStrip_of_ends
    · intro c hc
      rw [joinSpace_cons_cons,
          List.head?_append_of_ne_nil _ (natToStr_clean d0).2] at hc
      exact ((natToStr_clean d0).1 c (mem_of_head? hc)).2.1
    · intro c hc
      rw [show joinSpace [natToStr d0, natToStr d1, natToStr d2]
            = (natToStr d0 ++ ' ' :: (natToStr d1 ++ [' '])) ++ natToStr d2 by
          rw [joinSpace_cons_cons, joinSpace_cons_cons,
              show joinSpace [natToStr d2] = natToStr d2 from rfl]
          simp] at hc
      rw [List.getLast?_append_of_ne_nil _ (natToStr_clean d2).2] at hc
      exact ((natToStr_clean d2).1 c (mem_of_getLast? hc)).2.1
  have hclean6 : ∀ t ∈ MHD_TAGS, ∀ v,
      dictLookup (dictOf
        [ (("ObjectType").toList, ("Image").toList),
          (("BinaryData").toList, ("True").toList),
          (("BinaryDataByteOrderMSB").toList, ("False").toList),
          (("ElementType").toList, ("MET_FLOAT").toList),
          (("NDims").toList, natToStr 3),
          (("DimSize").toList, joinSpace [natToStr d0, natToStr d1, natToStr d2]),
          (("ElementDataFile").toList, rawname) ]) t = some v →
      pyStrip v = v ∧ '=' ∉ v ∧ '\n' ∉ v := by
    intro t ht v hv
    have hmem : (t, v) ∈ schemaRestrict (dictOf
        [ (("ObjectType").toList, ("Image").toList),
          (("BinaryData").toList, ("True").toList),
          (("BinaryDataByteOrderMSB").toList, ("False").toList),
          (("ElementType").toList, ("MET_FLOAT").toList),
          (("NDims").toList, natToStr 3),
          (("DimSize").toList, joinSpace [natToStr d0, natToStr d1, natToStr d2]),
          (("ElementDataFile").toList, rawname) ]) := by
      rw [schemaRestrict, restrictTags, List.mem_filterMap]
      exact ⟨t, ht, by rw [hv]; rfl⟩
    rw [show schemaRestrict (dictOf
        [ (("ObjectType").toList, ("Image").toList),
          (("BinaryData").toList, ("True").toList),
          (("BinaryDataByteOrderMSB").toList, ("False").toList),
          (("ElementType").toList, ("MET_FLOAT").toList),
          (("NDims").toList, natToStr 3),
          (("DimSize").toList, joinSpace [natToStr d0, natToStr d1, natToStr d2]),
          (("ElementDataFile").toList, rawname) ])
        = [ (("ObjectType").toList, ("Image").toList),
            (("NDims").toList, natToStr 3),
            (("BinaryData").toList, ("True").toList),
            (("BinaryDataByteOrderMSB").toList, ("False").toList),
            (("DimSize").toList, joinSpace [natToStr d0, natToStr d1, natToStr d2]),
            (("ElementType").toList, ("MET_FLOAT").toList),
            (("ElementDataFile").toList, rawname) ] from rfl] at hmem
    simp only [List.mem_cons, List.not_mem_nil, or_false, Prod.mk.injEq] at hmem
    rcases hmem with ⟨_, rfl⟩ | ⟨_, rfl⟩ | ⟨_, rfl⟩ | ⟨_, rfl⟩ | ⟨_, rfl⟩ | ⟨_, rfl⟩ | ⟨_, rfl⟩
    · exact ⟨by decide, by decide, by decide⟩
    · exact ⟨pyStrip_of_no_ws (fun c hc => ((natToStr_clean 3).1 c hc).2.1),
        fun hm => ((natToStr_clean 3).1 _ hm).2.2.1 rfl,
        fun hm => ((natToStr_clean 3).1 _ hm).2.2.2 rfl⟩
    · exact ⟨by decide, by decide, by decide⟩
    · exact ⟨by decide, by decide, by decide⟩
    · exact ⟨hjsStrip, hjsEq, hjsNl⟩
    · exact ⟨by decide, by decide, by decide⟩
    · exact ⟨hrawStrip, hrawEq, hrawNl⟩
  have hparse := read_write_roundtrip _ hclean6
  refine ⟨write_meta_header (dictOf
        [ (("ObjectType").toList, ("Image").toList),
          (("BinaryData").toList, ("True").toList),
          (("BinaryDataByteOrderMSB").toList, ("False").toList),
          (("ElementType").toList, ("MET_FLOAT").toList),
          (("NDims").toList, natToStr 3),
          (("DimSize").toList, joinSpace [natToStr d0, natToStr d1, natToStr d2]),
          (("ElementDataFile").toList, rawname) ]), (vals.map (wordToBytes 4)).flatten,
    schemaRestrict (dictOf
        [ (("ObjectType").toList, ("Image").toList),
          (("BinaryData").toList, ("True").toList),
          (("BinaryDataByteOrderMSB").toList, ("False").toList),
          (("ElementType").toList, ("MET_FLOAT").toList),
          (("NDims").toList, natToStr 3),
          (("DimSize").toList, joinSpace [natToStr d0, natToStr d1, natToStr d2]),
          (("ElementDataFile").toList, rawname) ]), ?_, ?_⟩
  · rfl
  · rw [load_raw_data_with_mhd, hparse]
    dsimp only []
    rw [show dictGet (schemaRestrict (dictOf
        [ (("ObjectType").toList, ("Image").toList),
          (("BinaryData").toList, ("True").toList),
          (("BinaryDataByteOrderMSB").toList, ("False").toList),
          (("ElementType").toList, ("MET_FLOAT").toList),
          (("NDims").toList, natToStr 3),
          (("DimSize").toList, joinSpace [natToStr d0, natToStr d1, natToStr d2]),
          (("ElementDataFile").toList, rawname) ])) (("NDims").toList) = Except.ok (natToStr 3) from rfl,
        show dictGet (schemaRestrict (dictOf
        [ (("ObjectType").toList, ("Image").toList),
          (("BinaryData").toList, ("True").toList),
          (("BinaryDataByteOrderMSB").toList, ("False").toList),
          (("ElementType").toList, ("MET_FLOAT").toList),
          (("NDims").toList, natToStr 3),
          (("DimSize").toList, joinSpace [natToStr d0, natToStr d1, natToStr d2]),
          (("ElementDataFile").toList, rawname) ])) (("ElementType").toList) = Except.ok (("MET_FLOAT").toList) from rfl,
        show dictGet (schemaRestrict (dictOf
        [ (("ObjectType").toList, ("Image").toList),
          (("BinaryData").toList, ("True").toList),
          (("BinaryDataByteOrderMSB").toList, ("False").toList),
          (("ElementType").toList, ("MET_FLOAT").toList),
          (("NDims").toList, natToStr 3),
          (("DimSize").toList, joinSpace [natToStr d0, natToStr d1, natToStr d2]),
          (("ElementDataFile").toList, rawname) ])) (("DimSize").toList)
          = Except.ok (joinSpace [natToStr d0, natToStr d1, natToStr d2]) from rfl,
        show dictGet (schemaRestrict (dictOf
        [ (("ObjectType").toList, ("Image").toList),
          (("BinaryData").toList, ("True").toList),
          (("BinaryDataByteOrderMSB").toList, ("False").toList),
          (("ElementType").toList, ("MET_FLOAT").toList),
          (("NDims").toList, natToStr 3),
          (("DimSize").toList, joinSpace [natToStr d0, natToStr d1, natToStr d2]),
          (("ElementDataFile").toList, rawname) ])) (("ElementDataFile").toList) = Except.ok rawname from rfl]
    dsimp only []
    rw [pyIntE_natToStr 3]
    dsimp only []
    rw [hsplitws, hmap]
    dsimp only []
    rw [show (dictLookup MHD_TO_NUMPY_TYPE (("MET_FLOAT").toList)).isNone = false from rfl]
    simp only [Bool.false_eq_true, if_false]
    rw [show dictGet MHD_TO_NUMPY_TYPE (("MET_FLOAT").toList) = Except.ok NpType.float32 from rfl]
    dsimp only []
    rw [show dictGet NDARRAY_TO_ARRAY_TYPE NpType.float32 = Except.ok 'f' from rfl]
    dsimp only []
    rw [show (if (3:Nat) = 0 then [d0, d1, d2].getLast? else [d0, d1, d2][3 - 1]?) = some d2 from rfl]
    dsimp only []
    rw [show (if (3:Nat) = 0 then [d0, d1, d2].dropLast else List.take (3 - 1) [d0, d1, d2]) = [d0, d1] from rfl]
    rw [show List.foldl (fun x1 x2 => x1 * x2) 1 [d0, d1] = 1 * d0 * d1 from rfl]
    rw [show arrayTypeWidth 'f' = (4:Nat) from rfl]
    rw [show [d0, d1, d2].reverse = [d2, d1, d0] from rfl]
    rw [show List.foldl (fun x1 x2 => x1 * x2) 1 [d2, d1, d0] = 1 * d2 * d1 * d0 from rfl]
    simp only [if_true]
    rw [decode_f32 vals (1 * d0 * d1 * d2 * 4) hbound (by rw [hlen]; nlinarith)]
    rw [flatten_wordToBytes_length vals, hlen]
    rw [if_neg (show ¬(4 * (d0 * d1 * d2) < 1 * d0 * d1 * d2 * 4) from by
      have h : 4 * (d0 * d1 * d2) = 1 * d0 * d1 * d2 * 4 := by ring
      rw [h]
      exact Nat.lt_irrefl _)]
    rw [if_neg (show ¬(d0 * d1 * d2 ≠ d2 * (1 * d0 * d1)) from not_ne_iff.mpr (by ring))]
    rw [if_neg (show ¬(d0 * d1 * d2 ≠ 1 * d2 * d1 * d0) from not_ne_iff.mpr (by ring))]

/-- Concrete instance of C6 (amended): a 2-sample float32 volume of shape
`(1,1,2)` round-trips to the reversed shape with identical samples. -/
theorem C6_roundtrip_witness :
    ∃ (header : Str) (raw : List Nat) (meta : List (Str × Str)),
      write_mhd_file ("im.raw").toList ⟨[1, 1, 2], [5, 7], NpType.float32⟩ [1, 1, 2]
        = .ok (header, raw) ∧
      load_raw_data_with_mhd header raw
        = .ok (⟨[2, 1, 1], [5, 7], NpType.float32⟩, meta) :=
  C6_float32_roundtrip_reversed 1 1 2 [5, 7] (("im.raw").toList)
    (by decide) (by decide) (by decide) (by decide) (by decide)

/-- Counterexample to C6 as stated: writing a float32 volume of shape
`(1,1,2)` and loading it back yields shape `(2,1,1)`, not the same shape. -/
theorem C6_counterexample :
    write_mhd_file ("im.raw").toList ⟨[1, 1, 2], [5, 7], NpType.float32⟩ [1, 1, 2]
      = .ok (("ObjectType = Image\nNDims = 3\nBinaryData = True\nBinaryDataByteOrderMSB = False\nDimSize = 1 1 2\nElementType = MET_FLOAT\nElementDataFile = im.raw\n").toList,
             [5, 0, 0, 0, 7, 0, 0, 0]) ∧
    (load_raw_data_with_mhd
        (("ObjectType = Image\nNDims = 3\nBinaryData = True\nBinaryDataByteOrderMSB = False\nDimSize = 1 1 2\nElementType = MET_FLOAT\nElementDataFile = im.raw\n").toList)
        [5, 0, 0, 0, 7, 0, 0, 0]).map (fun p => p.1.shape)
      = .ok [2, 1, 1] ∧
    [2, 1, 1] ≠ [1, 1, 2] := by
  refine ⟨by decide, by decide, by decide⟩

/-- Claim C1: with cached `(smoothed, masked)` flags equal to the requested
flags, resident data and the `'fill'` policy, `get_data` is claimed to return
the cached data with no recomputation.  Instead the cache-hit branch ends in
`return self.get_data()` (medimage.py line 198) — a recursive call with
identical state and the default arguments — so for cached flags
`(True, True)` the call never returns: for every amount of fuel the embedded
computation is still recursing. -/
theorem C1_cache_hit_infinite_recursion :
    ∀ (fuel : Nat) (smoothFn : Int → NdArr → Except PyErr NdArr),
      getData smoothFn fuel
        { img := { data := { shape := [2, 2, 2], vals := List.replicate 8 1 },
                   in_memory := true },
          mask := some { shape := [2, 2, 2], vals := List.replicate 8 true,
                         in_memory := true },
          caching := Caching.fill, smooth_fwhm := 2,
          is_data_masked := true, is_data_smooth := true }
        true true false = none := by
  intro fuel smoothFn
  induction fuel with
  | zero => rfl
  | succ n ih => simpa [getData, hasDataLoaded] using ih

/-- Claim C7: `apply_smoothing` commits no partial width: for `fwhm <= 0` it
is a no-op returning no data and leaving the state untouched; for positive
`fwhm`, when the recomputation fails the raised state's smoothing width
equals the width before the call and the raised error is exactly the one
`get_data` raised. -/
theorem C7_apply_smoothing_no_partial_width
    (smoothFn : Int → NdArr → Except PyErr NdArr) (fuel : Nat)
    (st : MedicalImage) (fwhm : Int) :
    (fwhm ≤ 0 → applySmoothing smoothFn fuel st fwhm = some (.ok st none)) ∧
    (∀ st' e, applySmoothing smoothFn fuel st fwhm = some (.raise st' e) →
      st'.smooth_fwhm = st.smooth_fwhm ∧
      ∃ st2, getData smoothFn fuel { st with smooth_fwhm := fwhm } true true true
               = some (.raise st2 e)) := by
  constructor
  · intro h
    simp [applySmoothing, h]
  · intro st' e h
    by_cases hf : fwhm ≤ 0
    · simp [applySmoothing, hf] at h
    · rw [applySmoothing, if_neg hf] at h
      cases hg : getData smoothFn fuel { st with smooth_fwhm := fwhm } true true true with
      | none => simp [hg] at h
      | some pr =>
        cases pr with
        | ok st2 d => simp [hg] at h
        | raise st2 e2 =>
          simp only [hg, Option.some.injEq, PyRes.raise.injEq] at h
          obtain ⟨hst, he⟩ := h
          subst he
          exact ⟨by rw [← hst], st2, rfl⟩

/-- Claim C9: `unmask` raises exactly when a mask is set and the input rank
is neither 1 nor 2; with no mask it returns the input unchanged; with a mask
a 1-D input is rebuilt to a full volume of the mask's shape and a 2-D input
to a stacked volume of one higher rank than the mask. -/
theorem C9_unmask_rank_contract (st : MedicalImage) (arr : NdArr) :
    ((∃ e, unmask st arr = .error e) ↔
      st.mask.isSome = true ∧ arr.shape.length ≠ 1 ∧ arr.shape.length ≠ 2) ∧
    (st.mask = none → unmask st arr = .ok arr) ∧
    (∀ m, st.mask = some m → arr.shape.length = 1 →
      unmask st arr = .ok (vector_to_volume arr m) ∧
      (vector_to_volume arr m).shape = m.shape) ∧
    (∀ m, st.mask = some m → arr.shape.length = 2 →
      unmask st arr = .ok (matrix_to_4dvolume arr m) ∧
      (matrix_to_4dvolume arr m).shape.length = m.shape.length + 1) := by
  refine ⟨?_, ?_, ?_, ?_⟩
  · cases hm : st.mask with
    | none => simp [unmask, hm]
    | some m =>
      by_cases h2 : arr.shape.length = 2
      · simp [unmask, hm, h2]
      · by_cases h1 : arr.shape.length = 1
        · simp [unmask, hm, h1, h2]
        · simp [unmask, hm, h1, h2]
  · intro hnone
    simp [unmask, hnone]
  · intro m hms h1
    have h2 : arr.shape.length ≠ 2 := by omega
    exact ⟨by simp [unmask, hms, h1, h2], rfl⟩
  · intro m hms h2
    exact ⟨by simp [unmask, hms, h2], by simp [matrix_to_4dvolume]⟩

/-- Claim C3: `get_data` with `safe_copy=true` is claimed to return an
independent deep copy that never aliases the resident cache.  It never
returns anything: the branch executes `data = get_data(self.img)`
(medimage.py line 201), and `get_data` is an unbound name — the module's
imports (lines 13-26) never bind a module-level `get_data`, none is defined
in the file, and a method name is not in scope unqualified inside its own
class — so every `safe_copy=True` call raises `NameError` with the state
unchanged, for every state and every combination of the
`(smoothed, masked)` flags. -/
theorem C3_safe_copy_raises_nameError
    (smoothFn : Int → NdArr → Except PyErr NdArr) (fuel : Nat)
    (st : MedicalImage) (smoothed masked : Bool) :
    getData smoothFn (fuel + 1) st smoothed masked true
      = some (.raise st PyErr.nameError) := by
  rw [getData]
  simp

/-- Concrete instance of C7: `apply_smoothing(-1)` is a no-op on the sample
state, and `apply_smoothing(2)` — whose recomputation raises (the
`safe_copy` read raises `NameError`, see C3) — raises while the width
observed in the raised state equals the width before the call. -/
theorem C7_apply_smoothing_witness :
    applySmoothing (fun _ a => Except.ok a) 1 sampleState (-1)
      = some (.ok sampleState none) ∧
    (sampleState.smooth_fwhm = sampleState.smooth_fwhm ∧
      ∃ st2, getData (fun _ a => Except.ok a) 1
          { sampleState with smooth_fwhm := 2 } true true true
        = some (.raise st2 PyErr.nameError)) :=
  ⟨(C7_apply_smoothing_no_partial_width
      (fun _ a => Except.ok a) 1 sampleState (-1)).1 (by decide),
   (C7_apply_smoothing_no_partial_width
      (fun _ a => Except.ok a) 1 sampleState 2).2
      sampleState PyErr.nameError (by decide)⟩

/-- Concrete instance of C9: with no mask set, `unmask` returns its input
unchanged. -/
theorem C9_unmask_witness :
    unmask sampleState { shape := [3], vals := [1, 2, 3] }
      = .ok { shape := [3], vals := [1, 2, 3] } :=
  (C9_unmask_rank_contract sampleState { shape := [3], vals := [1, 2, 3] }).2.1 rfl

/-- Claim C10: `clear_data` is claimed to succeed whether or not a mask is
set.  It does not: `self.mask.uncache()` (medimage.py line 124) is executed
unconditionally, so on an image with no mask it is `None.uncache()` and the
call raises `AttributeError` instead of succeeding.  Evaluated here on a
freshly constructed maskless image. -/
theorem C10_clear_data_without_mask_raises :
    clear_data
      { img := { data := { shape := [2, 2, 2], vals := List.replicate 8 1 },
                 in_memory := true },
        mask := none, caching := Caching.fill, smooth_fwhm := 0,
        is_data_masked := false, is_data_smooth := false }
      = .error .attributeError := by
  rfl

/-- Claim C2: the claim requires the element-type table to be a bijection.
It is not: the source table maps both `MET_UCHAR` and `MET_USHORT` to
`np.uint8` (and `MET_CHAR` and `MET_SHORT` to `np.int8`), and the inverted
table `NUMPY_TO_MHD_TYPE` has no entry at all for `np.uint64`, `np.uint16`
or `np.int16`, so `to_tag` is neither injective on tags nor total on the
element types `encode` accepts. -/
theorem C2_type_table_not_bijective :
    dictLookup MHD_TO_NUMPY_TYPE ("MET_UCHAR".toList) = some NpType.uint8 ∧
    dictLookup MHD_TO_NUMPY_TYPE ("MET_USHORT".toList) = some NpType.uint8 ∧
    dictLookup MHD_TO_NUMPY_TYPE ("MET_CHAR".toList) = some NpType.int8 ∧
    dictLookup MHD_TO_NUMPY_TYPE ("MET_SHORT".toList) = some NpType.int8 ∧
    dictLookup NUMPY_TO_MHD_TYPE NpType.uint64 = none ∧
    dictLookup NUMPY_TO_MHD_TYPE NpType.uint16 = none ∧
    dictLookup NUMPY_TO_MHD_TYPE NpType.int16 = none := by
  decide

end Boyle
